import Mathlib

/-!
Verification of the session store of the `only-context` repository
(`src/plugin/src/shared/session-store.ts`), as a shallow embedding.

Modelling conventions:
- Timestamps are epoch milliseconds (`Int`); the ISO string representation used
  by the source is immaterial to the verified properties, so `new Date().toISOString()`
  is modelled as the current instant and `new Date(s).getTime()` as the identity.
- File contents are modelled structurally: a metadata file is absent, unparsable
  JSON, or a parsed record; an observation log is a list of lines, each blank,
  syntactically malformed, or a parsed JSON object with optional fields (mirroring
  the unvalidated `JSON.parse(...) as T` casts of the source).
- Filesystem and lock non-determinism (lock acquisition success, write success)
  is passed in as explicit boolean parameters; clock readings are explicit `Int`
  parameters.
- `crypto.createHash("sha256")` is embedded as a full SHA-256 implementation over
  `Nat` byte lists (values reduced mod 2^32 / mod 256 where the algorithm does).
-/

namespace OnlyContext

/-! ## SHA-256 (crypto.createHash("sha256"), digest("hex")) -/

/-- Truncate to a 32-bit word. -/
def w32 (n : Nat) : Nat := n % 4294967296

/-- Right-rotation of a 32-bit word. -/
def rotr32 (n x : Nat) : Nat := w32 ((x >>> n) ||| (x <<< (32 - n)))

def bsig0 (x : Nat) : Nat := rotr32 2 x ^^^ rotr32 13 x ^^^ rotr32 22 x

def bsig1 (x : Nat) : Nat := rotr32 6 x ^^^ rotr32 11 x ^^^ rotr32 25 x

def ssig0 (x : Nat) : Nat := rotr32 7 x ^^^ rotr32 18 x ^^^ (x >>> 3)

def ssig1 (x : Nat) : Nat := rotr32 17 x ^^^ rotr32 19 x ^^^ (x >>> 10)

/-- The SHA-256 round constants. -/
def shaK : List Nat :=
  [1116352408, 1899447441, 3049323471, 3921009573, 961987163, 1508970993,
   2453635748, 2870763221, 3624381080, 310598401, 607225278, 1426881987,
   1925078388, 2162078206, 2614888103, 3248222580, 3835390401, 4022224774,
   264347078, 604807628, 770255983, 1249150122, 1555081692, 1996064986,
   2554220882, 2821834349, 2952996808, 3210313671, 3336571891, 3584528711,
   113926993, 338241895, 666307205, 773529912, 1294757372, 1396182291,
   1695183700, 1986661051, 2177026350, 2456956037, 2730485921, 2820302411,
   3259730800, 3345764771, 3516065817, 3600352804, 4094571909, 275423344,
   430227734, 506948616, 659060556, 883997877, 958139571, 1322822218,
   1537002063, 1747873779, 1955562222, 2024104815, 2227730452, 2361852424,
   2428436474, 2756734187, 3204031479, 3329325298]

/-- The eight 32-bit words of SHA-256 working state. -/
structure Hash8 where
  a : Nat
  b : Nat
  c : Nat
  d : Nat
  e : Nat
  f : Nat
  g : Nat
  h : Nat
deriving DecidableEq

def shaInit : Hash8 :=
  ⟨1779033703, 3144134277, 1013904242, 2773480762, 1359893119, 2600822924, 528734635, 1541459225⟩

def chV (e f g : Nat) : Nat := (e &&& f) ^^^ ((e ^^^ 0xffffffff) &&& g)

def majV (a b c : Nat) : Nat := (a &&& b) ^^^ (a &&& c) ^^^ (b &&& c)

/-- One SHA-256 compression round with round constant k and schedule word w. -/
def shaRound (st : Hash8) (k w : Nat) : Hash8 :=
  let t1 := w32 (st.h + bsig1 st.e + chV st.e st.f st.g + k + w)
  let t2 := w32 (bsig0 st.a + majV st.a st.b st.c)
  ⟨w32 (t1 + t2), st.a, st.b, st.c, w32 (st.d + t1), st.e, st.f, st.g⟩

/-- Extend the message schedule by one word. -/
def schedStep (ws : List Nat) : List Nat :=
  let n := ws.length
  ws ++ [w32 (ws.getD (n - 16) 0 + ssig0 (ws.getD (n - 15) 0) +
              ws.getD (n - 7) 0 + ssig1 (ws.getD (n - 2) 0))]

/-- The 64-word message schedule from the 16 words of a block. -/
def msgSchedule (w16 : List Nat) : List Nat := schedStep^[48] w16

/-- Compress one 16-word block into the hash state. -/
def compressBlock (H : Hash8) (block : List Nat) : Hash8 :=
  let ws := msgSchedule block
  let st := (List.zip shaK ws).foldl (fun s p => shaRound s p.1 p.2) H
  ⟨w32 (H.a + st.a), w32 (H.b + st.b), w32 (H.c + st.c), w32 (H.d + st.d),
   w32 (H.e + st.e), w32 (H.f + st.f), w32 (H.g + st.g), w32 (H.h + st.h)⟩

/-- Big-endian bytes of a number, k bytes wide. -/
def natToBytesBE : Nat → Nat → List Nat
  | 0, _ => []
  | k + 1, n => ((n >>> (8 * k)) % 256) :: natToBytesBE k n

/-- Group bytes into big-endian 32-bit words. -/
def bytesToWordsBE : List Nat → List Nat
  | a :: b :: c :: d :: rest =>
    ((((a <<< 8) ||| b) <<< 8 ||| c) <<< 8 ||| d) :: bytesToWordsBE rest
  | _ => []

/-- SHA-256 message padding: 0x80, zeros to 56 mod 64, 8-byte bit length. -/
def padMessage (msg : List Nat) : List Nat :=
  let l := msg.length
  let zeros := (119 - l % 64) % 64
  msg ++ [0x80] ++ List.replicate zeros 0 ++ natToBytesBE 8 (8 * l)

/-- Split a padded byte list into 16-word blocks (fuel-driven for reduction). -/
def chunkBlocks : Nat → List Nat → List (List Nat)
  | 0, _ => []
  | _, [] => []
  | fuel + 1, l => bytesToWordsBE (l.take 64) :: chunkBlocks fuel (l.drop 64)

/-- SHA-256 digest (32 bytes) of a byte list. -/
def sha256Bytes (msg : List Nat) : List Nat :=
  let padded := padMessage msg
  let H := (chunkBlocks padded.length padded).foldl compressBlock shaInit
  [H.a, H.b, H.c, H.d, H.e, H.f, H.g, H.h].flatMap (natToBytesBE 4)

/-- UTF-8 encoding of one character, as byte values. -/
def utf8EncodeCharNat (c : Char) : List Nat :=
  let n := c.toNat
  if n < 0x80 then [n]
  else if n < 0x800 then [0xC0 ||| (n >>> 6), 0x80 ||| (n &&& 0x3F)]
  else if n < 0x10000 then
    [0xE0 ||| (n >>> 12), 0x80 ||| ((n >>> 6) &&& 0x3F), 0x80 ||| (n &&& 0x3F)]
  else
    [0xF0 ||| (n >>> 18), 0x80 ||| ((n >>> 12) &&& 0x3F),
     0x80 ||| ((n >>> 6) &&& 0x3F), 0x80 ||| (n &&& 0x3F)]

/-- UTF-8 bytes of a string (what crypto.update receives). -/
def utf8Bytes (s : String) : List Nat := s.data.flatMap utf8EncodeCharNat

/-- Lowercase hex digit for a value below 16 (explicit table so proofs and
kernel evaluation stay elementary). -/
def hexDigitChar : Nat → Char
  | 0 => '0' | 1 => '1' | 2 => '2' | 3 => '3' | 4 => '4' | 5 => '5' | 6 => '6' | 7 => '7'
  | 8 => '8' | 9 => '9' | 10 => 'a' | 11 => 'b' | 12 => 'c' | 13 => 'd' | 14 => 'e' | 15 => 'f'
  | _ => '0'

/-- Two lowercase hex characters of a byte. -/
def byteToHex (b : Nat) : List Char := [hexDigitChar (b / 16), hexDigitChar (b % 16)]

/-- First 16 hex characters of the SHA-256 hex digest of a string:
digest("hex").substring(0, 16), i.e. the hex of the first 8 digest bytes. -/
def hash16 (s : String) : String :=
  String.mk (((sha256Bytes (utf8Bytes s)).take 8).flatMap byteToHex)

/-- ASCII alphanumeric test, the character class kept by replace(/[^a-zA-Z0-9]/g, ""). -/
def isAsciiAlphaNum (c : Char) : Bool :=
  (48 ≤ c.toNat && c.toNat ≤ 57) || (65 ≤ c.toNat && c.toNat ≤ 90) ||
    (97 ≤ c.toNat && c.toNat ≤ 122)

/-- ASCII lowercasing (what toLowerCase does on the alphanumeric-only residue). -/
def asciiLower : Char → Char
  | 'A' => 'a' | 'B' => 'b' | 'C' => 'c' | 'D' => 'd' | 'E' => 'e' | 'F' => 'f' | 'G' => 'g'
  | 'H' => 'h' | 'I' => 'i' | 'J' => 'j' | 'K' => 'k' | 'L' => 'l' | 'M' => 'm' | 'N' => 'n'
  | 'O' => 'o' | 'P' => 'p' | 'Q' => 'q' | 'R' => 'r' | 'S' => 's' | 'T' => 't' | 'U' => 'u'
  | 'V' => 'v' | 'W' => 'w' | 'X' => 'x' | 'Y' => 'y' | 'Z' => 'z'
  | c => c

/-- sessionId.substring(0, 8).replace(/[^a-zA-Z0-9]/g, "").toLowerCase()
(substring counts UTF-16 code units; we count characters, which agrees on the
basic multilingual plane and is immaterial to the verified properties). -/
def filenamePfx (s : String) : String :=
  String.mk (((s.data.take 8).filter isAsciiAlphaNum).map asciiLower)

/-- safeSessionFilename: hash-plus-legible-prefix derived filename
(the prefix falls back to "session" when empty, as with the || operator). -/
def safeSessionFilename (sessionId : String) : String :=
  (if filenamePfx sessionId = "" then "session" else filenamePfx sessionId) ++
    "_" ++ hash16 sessionId

/-- The subsequence of characters of a string that are safe in a filename;
two identifiers differ only by unsafe characters when these agree. -/
def stripUnsafe (s : String) : String := String.mk (s.data.filter isAsciiAlphaNum)


/-! ## Session store data model -/

/-- The metadata record of interface SessionMetadata. Timestamps are epoch
milliseconds; status is kept as a raw string, since readSessionMetadata casts
parsed JSON without validating that status is one of the three legal values. -/
structure SessionMetadata where
  id : String
  project : String
  projectPath : String
  startTime : Int
  endTime : Option Int
  durationMinutes : Option Int
  status : String
  summary : Option String
  lastUpdated : Int
  preCompactKnowledge : Option (List String)
deriving DecidableEq

/-- A sessions/{safe_id}.json metadata file: absent, present but not valid JSON
(JSON.parse throws), or parsed to a record. -/
inductive MetaFile where
  | absent
  | corrupt
  | valid (m : SessionMetadata)
deriving DecidableEq

/-- An observation record as obtained from JSON.parse of one log line: every
field may be missing, mirroring the unvalidated cast to Observation. The data
payload is abstracted to its path field, the only part the store reads. -/
structure RawObs where
  id : Option String
  timestamp : Option String
  type : Option String
  tool : Option String
  isError : Option Bool
  dataPath : Option String
deriving DecidableEq

/-- One line of an observations.jsonl file: empty after trim, syntactically
invalid JSON, or a parsed JSON object. -/
inductive ObsLine where
  | blank
  | malformed (raw : String)
  | parsed (o : RawObs)
deriving DecidableEq

/-- A sessions/{safe_id}.observations.jsonl file: absent, unreadable
(readFileSync throws), or a sequence of lines. -/
inductive ObsFile where
  | absent
  | unreadable
  | lines (ls : List ObsLine)
deriving DecidableEq

/-- A sessions/{safe_id}.pending counter file: absent, unreadable (readFileSync
throws), parsing to an integer n (parseInt(content, 10) = n), or not parsing to
an integer (parseInt yields NaN, e.g. a partial write). -/
inductive PendingFile where
  | absent
  | unreadable
  | num (n : Int)
  | malformed
deriving DecidableEq

/-- The on-disk state of one session: file contents plus modification times
(none models an absent file or a failing stat call). -/
structure SessionFiles where
  meta : MetaFile
  metaMtime : Option Int
  obs : ObsFile
  obsMtime : Option Int
  pending : PendingFile
deriving DecidableEq

/-- A full observation as passed to addObservation by the hooks (all fields
present, data abstracted to its path field). -/
structure Observation where
  id : String
  timestamp : String
  type : String
  tool : String
  isError : Bool
  dataPath : Option String
deriving DecidableEq

/-- The line appendObservation writes: JSON.stringify of a full observation,
which parses back with every field present. -/
def rawOfObservation (o : Observation) : RawObs :=
  { id := some o.id, timestamp := some o.timestamp, type := some o.type,
    tool := some o.tool, isError := some o.isError, dataPath := o.dataPath }

/-- The Session record returned to callers (types.ts Session). -/
structure Session where
  id : String
  project : String
  projectPath : String
  startTime : Int
  endTime : Option Int
  durationMinutes : Option Int
  status : String
  summary : Option String
  observations : List RawObs
  filesModified : List String
  commandsRun : Nat
  errorsEncountered : Nat
deriving DecidableEq

/-! ## Session store operations -/

/-- readSessionMetadata: null when the file is absent or JSON.parse throws. -/
def readSessionMetadata : MetaFile → Option SessionMetadata
  | .absent => none
  | .corrupt => none
  | .valid m => some m

/-- writeSessionMetadata: refresh lastUpdated, then atomic whole-record
replace of the metadata file (temp write + rename), stamping its mtime. -/
def writeSessionMetadata (now : Int) (m : SessionMetadata) (st : SessionFiles) : SessionFiles :=
  { st with meta := .valid { m with lastUpdated := now }, metaMtime := some now }

/-- JavaScript truthiness of an optional string field (undefined and the empty
string are falsy). -/
def truthyStr : Option String → Bool
  | some s => !(s == "")
  | none => false

/-- The required-field validation of readObservations:
obs.id, obs.timestamp and obs.type truthy, obs.tool not undefined. -/
def validObs (o : RawObs) : Bool :=
  truthyStr o.id && truthyStr o.timestamp && truthyStr o.type && o.tool.isSome

/-- What one log line contributes to the result of readObservations: blank
lines are skipped, lines failing JSON.parse are skipped, parsed records missing
a required field are skipped. -/
def parseLine : ObsLine → Option RawObs
  | .blank => none
  | .malformed _ => none
  | .parsed o => if validObs o then some o else none

/-- readObservations: empty on an absent or unreadable file, otherwise every
line is parsed independently and the surviving records are kept in file order. -/
def readObservations : ObsFile → List RawObs
  | .absent => []
  | .unreadable => []
  | .lines ls => ls.filterMap parseLine

/-- The per-observation step of the counter loop in readSession
(file_edit adds a truthy path to the Set, command increments commandsRun,
error type or a truthy isError flag increments errorsEncountered). -/
def obsStep (acc : List String × Nat × Nat) (o : RawObs) : List String × Nat × Nat :=
  let files := acc.1
  let cmds := acc.2.1
  let errs := acc.2.2
  let fc :=
    if o.type = some "file_edit" then
      (match o.dataPath with
       | some p => if p ≠ "" then (if p ∈ files then files else files ++ [p]) else files
       | none => files, cmds)
    else if o.type = some "command" then (files, cmds + 1)
    else (files, cmds)
  let errs2 := if o.type = some "error" ∨ o.isError = some true then errs + 1 else errs
  (fc.1, fc.2, errs2)

/-- readSession: metadata plus observations, with counters computed from the
observation list (filesModified keeps Set insertion order). -/
def readSession (st : SessionFiles) : Option Session :=
  match readSessionMetadata st.meta with
  | none => none
  | some m =>
    let obs := readObservations st.obs
    let c := obs.foldl obsStep ([], 0, 0)
    some { id := m.id, project := m.project, projectPath := m.projectPath,
           startTime := m.startTime, endTime := m.endTime,
           durationMinutes := m.durationMinutes, status := m.status,
           summary := m.summary, observations := obs,
           filesModified := c.1, commandsRun := c.2.1, errorsEncountered := c.2.2 }

/-- startSession: write a fresh active metadata record and return a fresh
Session value (built directly, not via readSession). -/
def startSession (now : Int) (sessionId project projectPath : String)
    (st : SessionFiles) : Session × SessionFiles :=
  let m : SessionMetadata :=
    { id := sessionId, project := project, projectPath := projectPath,
      startTime := now, endTime := none, durationMinutes := none,
      status := "active", summary := none, lastUpdated := now,
      preCompactKnowledge := none }
  let st2 := writeSessionMetadata now m st
  ({ id := sessionId, project := project, projectPath := projectPath,
     startTime := now, endTime := none, durationMinutes := none,
     status := "active", summary := none, observations := [],
     filesModified := [], commandsRun := 0, errorsEncountered := 0 }, st2)

/-- appendObservation: under the session lock, append one serialized record to
the log (lockOk models acquireLock succeeding, writeOk models appendFileSync
not throwing). Appending to an unreadable file is modelled as leaving it
unreadable. -/
def appendObservation (now : Int) (lockOk writeOk : Bool) (o : Observation)
    (st : SessionFiles) : Bool × SessionFiles :=
  if !lockOk then (false, st)
  else if !writeOk then (false, st)
  else
    match st.obs with
    | .lines ls =>
      (true, { st with obs := .lines (ls ++ [.parsed (rawOfObservation o)]),
                       obsMtime := some now })
    | .absent =>
      (true, { st with obs := .lines [.parsed (rawOfObservation o)],
                       obsMtime := some now })
    | .unreadable => (true, { st with obsMtime := some now })

/-- addObservation: refuse when the metadata file is absent, unparsable, or its
status is not active; otherwise append under the lock. -/
def addObservation (now : Int) (lockOk writeOk : Bool) (o : Observation)
    (st : SessionFiles) : Bool × SessionFiles :=
  match readSessionMetadata st.meta with
  | none => (false, st)
  | some m =>
    if m.status ≠ "active" then (false, st)
    else appendObservation now lockOk writeOk o st

/-- Math.round(ms / 60000) for an integer millisecond delta. -/
def jsRoundMinutes (ms : Int) : Int := Int.fdiv (2 * ms + 60000) 120000

/-- endSession: null if the metadata is missing or unparsable; if the status is
not active, return the current record without writing; otherwise stamp the end
time, set the terminal status ("stopped" for endType "stop", else "completed"),
compute the duration and write the record back. -/
def endSession (now : Int) (endType : String) (st : SessionFiles) :
    Option Session × SessionFiles :=
  match readSessionMetadata st.meta with
  | none => (none, st)
  | some m =>
    if m.status ≠ "active" then (readSession st, st)
    else
      let m2 := { m with
        endTime := some now,
        status := if endType = "stop" then "stopped" else "completed",
        durationMinutes := some (jsRoundMinutes (now - m.startTime)) }
      let st2 := writeSessionMetadata now m2 st
      (readSession st2, st2)

/-- updateSessionSummary: overwrite the summary field and write back. -/
def updateSessionSummary (now : Int) (summary : String) (st : SessionFiles) :
    Bool × SessionFiles :=
  match readSessionMetadata st.meta with
  | none => (false, st)
  | some m => (true, writeSessionMetadata now { m with summary := some summary } st)

/-- updatePreCompactKnowledge: append paths to the accumulated knowledge list
and write back. -/
def updatePreCompactKnowledge (now : Int) (paths : List String) (st : SessionFiles) :
    Bool × SessionFiles :=
  match readSessionMetadata st.meta with
  | none => (false, st)
  | some m =>
    (true, writeSessionMetadata now
      { m with preCompactKnowledge := some (m.preCompactKnowledge.getD [] ++ paths) } st)

/-! ## Pending background job counter -/

/-- getPendingJobCount: 0 when the file is absent; on a read error or a value
parseInt cannot parse, 1 in conservative mode and 0 otherwise. -/
def getPendingJobCount (p : PendingFile) (conservative : Bool) : Int :=
  match p with
  | .absent => 0
  | .unreadable => if conservative then 1 else 0
  | .malformed => if conservative then 1 else 0
  | .num n => n

/-- markBackgroundJobStarted: under the pending lock (lockOk), read the counter
non-conservatively and write count + 1; without the lock, skip. -/
def markBackgroundJobStarted (lockOk : Bool) (p : PendingFile) : PendingFile :=
  if !lockOk then p
  else .num (getPendingJobCount p false + 1)

/-- markBackgroundJobCompleted: under the pending lock, read the counter
non-conservatively; at count <= 1 delete the file, otherwise write count - 1;
without the lock, skip. -/
def markBackgroundJobCompleted (lockOk : Bool) (p : PendingFile) : PendingFile :=
  if !lockOk then p
  else
    let n := getPendingJobCount p false
    if n ≤ 1 then .absent else .num (n - 1)

/-- The wait-until-zero polling loop shared by getPreCompactKnowledge and
clearSessionFile: at each poll step i the counter file holds trace i; the loop
exits with the step index once a conservative read is <= 0, or with none once
the fuel (maxWait divided by the poll interval) is exhausted. -/
def waitPendingZero (trace : Nat → PendingFile) : Nat → Nat → Option Nat
  | 0, _ => none
  | fuel + 1, i =>
    if getPendingJobCount (trace i) true ≤ 0 then some i
    else waitPendingZero trace fuel (i + 1)

/-- getPreCompactKnowledge, after its wait loop (modelled by waitPendingZero):
the accumulated knowledge paths, or empty when metadata is missing. -/
def getPreCompactKnowledge (st : SessionFiles) : List String :=
  match readSessionMetadata st.meta with
  | none => []
  | some m => m.preCompactKnowledge.getD []

/-! ## Stale session reaper -/

/-- getSessionLastActivity: the most recent of the metadata file mtime and the
observations file mtime, starting from 0; files that are absent or whose stat
fails contribute nothing. -/
def getSessionLastActivity (st : SessionFiles) : Int :=
  let a1 : Int := 0
  let a2 := match st.metaMtime with
    | some t => max a1 t
    | none => a1
  match st.obsMtime with
  | some t => max a2 t
  | none => a2

/-- clearSessionFile, after its wait loop (modelled by waitPendingZero):
delete the metadata, observations and pending files (lock files, transient by
construction, are outside the modelled state). -/
def clearSessionFileResult (_st : SessionFiles) : SessionFiles :=
  { meta := .absent, metaMtime := none, obs := .absent, obsMtime := none,
    pending := .absent }

/-- The per-session body of cleanupStaleSessions: a session whose metadata file
is listed and parses is finalized and removed when its last activity (metadata
or log mtime, whichever is newer) is older than maxAgeHours; the returned
record has an active status forced to stopped with the end time stamped. -/
def cleanupStaleSession (now : Int) (maxAgeHours : Int) (st : SessionFiles) :
    Option Session × SessionFiles :=
  match st.meta with
  | .absent => (none, st)
  | .corrupt => (none, st)
  | .valid _ =>
    let lastActivity := getSessionLastActivity st
    if now - lastActivity > maxAgeHours * 3600000 then
      let finalized := (readSession st).map fun s =>
        if s.status = "active" then { s with status := "stopped", endTime := some now } else s
      (finalized, clearSessionFileResult st)
    else
      (none, st)

/-! ## Operation words for the lifecycle invariants -/

/-- One metadata-mutating store operation (the operations quantified over by
the lifecycle and frame claims). -/
inductive StoreOp where
  | opEnd (now : Int) (endType : String)
  | opSummary (now : Int) (s : String)
  | opKnowledge (now : Int) (paths : List String)
deriving DecidableEq

/-- Apply one store operation to the on-disk state. -/
def applyOp (op : StoreOp) (st : SessionFiles) : SessionFiles :=
  match op with
  | .opEnd now t => (endSession now t st).2
  | .opSummary now s => (updateSessionSummary now s st).2
  | .opKnowledge now ps => (updatePreCompactKnowledge now ps st).2

/-- The status stored in a metadata file, when one is stored. -/
def statusOf : MetaFile → Option String
  | .absent => none
  | .corrupt => none
  | .valid m => some m.status

/-- The identity fields stored in a metadata file, when one is stored. -/
def metaIdentityOf : MetaFile → Option (String × String × String)
  | .absent => none
  | .corrupt => none
  | .valid m => some (m.id, m.project, m.projectPath)

/-! ## Auxiliary definitions for the analysis -/

/-- The file_edit branch of the readSession counter loop, as a named function
(Set.add of a truthy path). -/
def fileInsert (files : List String) (dp : Option String) : List String :=
  match dp with
  | some p => if p ≠ "" then (if p ∈ files then files else files ++ [p]) else files
  | none => files

/-- Big-endian value of a byte list (used to compare truncated digests). -/
def beVal (l : List Nat) : Nat := l.foldl (fun a b => 256 * a + b) 0

/-- The first 8 bytes of the SHA-256 digest of a string, the bytes whose hex
form is the 16-character hash component of safeSessionFilename. -/
def trunc8 (s : String) : List Nat := (sha256Bytes (utf8Bytes s)).take 8

/-- A session identifier made of n filename-unsafe characters. -/
def bangRepeat (n : Nat) : String := String.mk (List.replicate n '!')

/-! ## Concrete example states (used by the witnesses) -/

def exMetaCompleted : SessionMetadata :=
  { id := "s1", project := "proj", projectPath := "/tmp/proj", startTime := 0,
    endTime := some 60000, durationMinutes := some 1, status := "completed",
    summary := none, lastUpdated := 60000, preCompactKnowledge := none }

def exStateCompleted : SessionFiles :=
  { meta := .valid exMetaCompleted, metaMtime := some 60000, obs := .lines [],
    obsMtime := none, pending := .absent }

def exMetaActive : SessionMetadata :=
  { id := "s2", project := "proj", projectPath := "/tmp/proj", startTime := 0,
    endTime := none, durationMinutes := none, status := "active",
    summary := none, lastUpdated := 0, preCompactKnowledge := none }

def exStateCorrupt : SessionFiles :=
  { meta := .corrupt, metaMtime := some 0, obs := .lines [], obsMtime := none,
    pending := .absent }

def exObsCommand : RawObs :=
  { id := some "o1", timestamp := some "t1", type := some "command",
    tool := some "Bash", isError := some false, dataPath := none }

def exObsEdit : RawObs :=
  { id := some "o2", timestamp := some "t2", type := some "file_edit",
    tool := some "Edit", isError := some false, dataPath := some "/a.txt" }

def exStateWithObs : SessionFiles :=
  { meta := .valid exMetaActive, metaMtime := some 0,
    obs := .lines [.parsed exObsCommand, .malformed "oops", .parsed exObsEdit],
    obsMtime := some 0, pending := .absent }

def exSessionWithObs : Session :=
  { id := "s2", project := "proj", projectPath := "/tmp/proj", startTime := 0,
    endTime := none, durationMinutes := none, status := "active", summary := none,
    observations := [exObsCommand, exObsEdit], filesModified := ["/a.txt"],
    commandsRun := 1, errorsEncountered := 0 }

def exStateRecentLog : SessionFiles :=
  { meta := .valid exMetaActive, metaMtime := some 0,
    obs := .lines [.parsed exObsCommand], obsMtime := some 100,
    pending := .absent }

/-! ## Theorems -/

/-- C1: endSession is idempotent on terminal sessions: when the stored status
is already completed or stopped, it returns the current session record and
leaves the stored state (metadata, end time, duration, mtimes) unchanged. -/
theorem endSession_idempotent_terminal (now : Int) (endType : String)
    (st : SessionFiles) (m : SessionMetadata)
    (hm : readSessionMetadata st.meta = some m)
    (hterm : m.status = "completed" ∨ m.status = "stopped") :
    endSession now endType st = (readSession st, st) := by
  have hne : ¬ m.status = "active" := by
    rcases hterm with h | h <;> rw [h] <;> decide
  unfold endSession
  rw [hm]
  simp [hne]

/-- C1 witness: the theorem applied to a concrete completed session. -/
theorem endSession_idempotent_terminal_witness :
    readSessionMetadata exStateCompleted.meta = some exMetaCompleted ∧
    (exMetaCompleted.status = "completed" ∨ exMetaCompleted.status = "stopped") ∧
    endSession 120000 "end" exStateCompleted = (readSession exStateCompleted, exStateCompleted) :=
  ⟨rfl, Or.inl rfl,
    endSession_idempotent_terminal 120000 "end" exStateCompleted exMetaCompleted rfl (Or.inl rfl)⟩

/-- C9: addObservation refuses inactive sessions: when the metadata file is
absent, unparsable, or holds a status other than active, it returns false and
leaves the state (in particular the observation log) unchanged. -/
theorem addObservation_refuses_inactive (now : Int) (lockOk writeOk : Bool)
    (o : Observation) (st : SessionFiles)
    (h : ∀ m, readSessionMetadata st.meta = some m → m.status ≠ "active") :
    addObservation now lockOk writeOk o st = (false, st) := by
  unfold addObservation
  cases hm : readSessionMetadata st.meta with
  | none => rfl
  | some m => simp [h m hm]

/-- C9 witness: the theorem applied to a session whose metadata file does not
parse. -/
theorem addObservation_refuses_inactive_witness :
    (∀ m, readSessionMetadata exStateCorrupt.meta = some m → m.status ≠ "active") ∧
    addObservation 7 true true
        { id := "o9", timestamp := "t", type := "command", tool := "Bash",
          isError := false, dataPath := none } exStateCorrupt =
      (false, exStateCorrupt) := by
  have hno : ∀ m, readSessionMetadata exStateCorrupt.meta = some m → m.status ≠ "active" := by
    intro m hm
    simp [exStateCorrupt, readSessionMetadata] at hm
  exact ⟨hno, addObservation_refuses_inactive 7 true true _ exStateCorrupt hno⟩

/-- Iterating markBackgroundJobStarted K times on an absent counter yields
the counter K (or still-absent when K = 0). -/
theorem markStarted_iterate (K : Nat) :
    (markBackgroundJobStarted true)^[K] PendingFile.absent =
      if K = 0 then PendingFile.absent else PendingFile.num K := by
  induction K with
  | zero => rfl
  | succ k ih =>
    rw [Function.iterate_succ_apply', ih]
    by_cases hk : k = 0
    · subst hk; rfl
    · simp only [hk, if_neg, if_false]
      show PendingFile.num (getPendingJobCount (PendingFile.num k) false + 1) =
          PendingFile.num (k + 1 : Nat)
      simp [getPendingJobCount]

/-- Iterating markBackgroundJobCompleted K + 1 times on a counter holding
K + 1 deletes the counter file. -/
theorem markCompleted_iterate (K : Nat) :
    (markBackgroundJobCompleted true)^[K + 1] (PendingFile.num (K + 1 : Nat)) =
      PendingFile.absent := by
  induction K with
  | zero => rfl
  | succ k ih =>
    rw [Function.iterate_succ_apply]
    have hstep : markBackgroundJobCompleted true (PendingFile.num (k + 2 : Nat)) =
        PendingFile.num (k + 1 : Nat) := by
      show (if ((k : Int) + 2 ≤ 1) then PendingFile.absent
            else PendingFile.num ((k : Int) + 2 - 1)) = PendingFile.num (k + 1 : Nat)
      rw [if_neg (by omega)]
      congr 1
      omega
    calc (markBackgroundJobCompleted true)^[k + 1]
            (markBackgroundJobCompleted true (PendingFile.num (k + 2 : Nat)))
        = (markBackgroundJobCompleted true)^[k + 1] (PendingFile.num (k + 1 : Nat)) := by
          rw [hstep]
      _ = PendingFile.absent := ih

/-- C2: K markBackgroundJobStarted calls from an absent counter file followed
by K markBackgroundJobCompleted calls (every call holding the pending lock)
leave no counter file, and one extra markBackgroundJobCompleted call is a
no-op that leaves the state unchanged. -/
theorem pending_counter_balanced (K : Nat) :
    (markBackgroundJobCompleted true)^[K]
        ((markBackgroundJobStarted true)^[K] PendingFile.absent) = PendingFile.absent ∧
    markBackgroundJobCompleted true
        ((markBackgroundJobCompleted true)^[K]
          ((markBackgroundJobStarted true)^[K] PendingFile.absent)) = PendingFile.absent := by
  have hmain : (markBackgroundJobCompleted true)^[K]
      ((markBackgroundJobStarted true)^[K] PendingFile.absent) = PendingFile.absent := by
    rw [markStarted_iterate]
    cases K with
    | zero => rfl
    | succ k => simpa using markCompleted_iterate k
  exact ⟨hmain, by rw [hmain]; rfl⟩

/-- C3: the conservative wait-until-zero barrier never exits because of a read
error or malformed counter value: when the loop exits, the counter file at
that step is absent or parses to an integer at most 0; an unreadable or
malformed counter file always reads as a still-pending count of at least 1. -/
theorem conservative_wait_never_exits_on_error :
    (∀ (trace : Nat → PendingFile) (fuel i j : Nat),
        waitPendingZero trace fuel i = some j →
        trace j = PendingFile.absent ∨ ∃ n : Int, trace j = PendingFile.num n ∧ n ≤ 0) ∧
    (∀ p : PendingFile, p = PendingFile.unreadable ∨ p = PendingFile.malformed →
        1 ≤ getPendingJobCount p true) := by
  constructor
  · intro trace fuel
    induction fuel with
    | zero => intro i j h; exact absurd h (by simp [waitPendingZero])
    | succ f ih =>
      intro i j h
      unfold waitPendingZero at h
      by_cases hc : getPendingJobCount (trace i) true ≤ 0
      · rw [if_pos hc] at h
        cases h
        cases hp : trace i with
        | absent => exact Or.inl rfl
        | unreadable => rw [hp] at hc; exact absurd hc (by decide)
        | malformed => rw [hp] at hc; exact absurd hc (by decide)
        | num n => rw [hp] at hc; exact Or.inr ⟨n, rfl, hc⟩
      · rw [if_neg hc] at h
        exact ih (i + 1) j h
  · intro p hp
    rcases hp with h | h <;> rw [h] <;> decide

/-- C3 witness: the theorem applied to a concrete trace whose counter file is
absent at the exit step, and to the unreadable counter file. -/
theorem conservative_wait_never_exits_on_error_witness :
    waitPendingZero (fun _ => PendingFile.absent) 1 0 = some 0 ∧
    ((fun _ : Nat => PendingFile.absent) 0 = PendingFile.absent ∨
      ∃ n : Int, (fun _ : Nat => PendingFile.absent) 0 = PendingFile.num n ∧ n ≤ 0) ∧
    (PendingFile.unreadable = PendingFile.unreadable ∨
      PendingFile.unreadable = PendingFile.malformed) ∧
    1 ≤ getPendingJobCount PendingFile.unreadable true :=
  ⟨rfl,
    conservative_wait_never_exits_on_error.1 (fun _ => PendingFile.absent) 1 0 0 rfl,
    Or.inl rfl,
    conservative_wait_never_exits_on_error.2 PendingFile.unreadable (Or.inl rfl)⟩

/-- C4: readObservations returns exactly the valid records: a log of one valid
record, one syntactically invalid line, and one more valid record parses to
exactly the two valid observations in order, and in general any line that
fails to parse or lacks a required field is skipped without affecting the
other lines. -/
theorem readObservations_skips_invalid :
    (∀ (v1 v2 : RawObs) (s : String), validObs v1 = true → validObs v2 = true →
        readObservations (ObsFile.lines [.parsed v1, .malformed s, .parsed v2]) = [v1, v2]) ∧
    (∀ (ls1 ls2 : List ObsLine) (bad : ObsLine), parseLine bad = none →
        readObservations (ObsFile.lines (ls1 ++ bad :: ls2)) =
          readObservations (ObsFile.lines ls1) ++ readObservations (ObsFile.lines ls2)) := by
  constructor
  · intro v1 v2 s h1 h2
    simp [readObservations, List.filterMap_cons, parseLine, h1, h2]
  · intro ls1 ls2 bad hbad
    simp [readObservations, List.filterMap_append, List.filterMap_cons, hbad]

/-- C4 witness: the theorem applied to a concrete log containing a command
record, a malformed line, and a file-edit record. -/
theorem readObservations_skips_invalid_witness :
    validObs exObsCommand = true ∧ validObs exObsEdit = true ∧
    readObservations
        (ObsFile.lines [.parsed exObsCommand, .malformed "oops", .parsed exObsEdit]) =
      [exObsCommand, exObsEdit] :=
  ⟨rfl, rfl, readObservations_skips_invalid.1 exObsCommand exObsEdit "oops" rfl rfl⟩

/-- C5: the stale-session sweep keeps any session whose observation log mtime
is within the maximum age, whatever the metadata mtime; and it finalizes and
deletes a session only when the most recent of the two mtimes is older than
the maximum age. -/
theorem reaper_keeps_recent_log :
    (∀ (now maxAgeHours t : Int) (st : SessionFiles),
        st.obsMtime = some t → now - t ≤ maxAgeHours * 3600000 →
        cleanupStaleSession now maxAgeHours st = (none, st)) ∧
    (∀ (now maxAgeHours : Int) (st : SessionFiles),
        (cleanupStaleSession now maxAgeHours st).2 ≠ st →
        now - getSessionLastActivity st > maxAgeHours * 3600000) := by
  constructor
  · intro now maxAge t st hobs hrecent
    have hlast : t ≤ getSessionLastActivity st := by
      unfold getSessionLastActivity
      rw [hobs]
      exact le_max_right _ t
    have hcond : ¬ (now - getSessionLastActivity st > maxAge * 3600000) := by omega
    unfold cleanupStaleSession
    cases hm : st.meta with
    | absent => rfl
    | corrupt => rfl
    | valid m => simp [hcond]
  · intro now maxAge st hne
    by_contra hcond
    apply hne
    unfold cleanupStaleSession
    cases hm : st.meta with
    | absent => rfl
    | corrupt => rfl
    | valid m => simp [hcond]

/-- C5 witness: the theorem applied to a session whose metadata mtime is old
but whose log was modified within the age bound. -/
theorem reaper_keeps_recent_log_witness :
    exStateRecentLog.obsMtime = some 100 ∧
    (3600000 : Int) - 100 ≤ 1 * 3600000 ∧
    cleanupStaleSession 3600000 1 exStateRecentLog = (none, exStateRecentLog) :=
  ⟨rfl, by norm_num,
    reaper_keeps_recent_log.1 3600000 1 100 exStateRecentLog rfl (by norm_num)⟩

/-- Any single store operation either leaves the stored status unchanged or
moves it from active to completed or stopped. -/
theorem statusOf_applyOp_step (op : StoreOp) (st : SessionFiles) :
    statusOf (applyOp op st).meta = statusOf st.meta ∨
    (statusOf st.meta = some "active" ∧
      (statusOf (applyOp op st).meta = some "completed" ∨
        statusOf (applyOp op st).meta = some "stopped")) := by
  obtain ⟨mf, mm, ob, om, pd⟩ := st
  cases op with
  | opEnd now t =>
    cases mf with
    | absent => exact Or.inl rfl
    | corrupt => exact Or.inl rfl
    | valid m =>
      by_cases hs : m.status = "active"
      · refine Or.inr ⟨by simp [statusOf, hs], ?_⟩
        by_cases ht : t = "stop"
        · right
          simp [applyOp, endSession, readSessionMetadata, writeSessionMetadata, statusOf, hs, ht]
        · left
          simp [applyOp, endSession, readSessionMetadata, writeSessionMetadata, statusOf, hs, ht]
      · exact Or.inl (by
          simp [applyOp, endSession, readSessionMetadata, statusOf, hs])
  | opSummary now s2 =>
    cases mf with
    | absent => exact Or.inl rfl
    | corrupt => exact Or.inl rfl
    | valid m =>
      exact Or.inl (by
        simp [applyOp, updateSessionSummary, readSessionMetadata, writeSessionMetadata, statusOf])
  | opKnowledge now ps =>
    cases mf with
    | absent => exact Or.inl rfl
    | corrupt => exact Or.inl rfl
    | valid m =>
      exact Or.inl (by
        simp [applyOp, updatePreCompactKnowledge, readSessionMetadata, writeSessionMetadata,
          statusOf])

/-- A stored terminal status survives any sequence of store operations. -/
theorem statusOf_foldl_terminal (ops : List StoreOp) (st : SessionFiles)
    (h : statusOf st.meta = some "completed" ∨ statusOf st.meta = some "stopped") :
    statusOf ((ops.foldl (fun s op => applyOp op s) st)).meta = statusOf st.meta := by
  induction ops generalizing st with
  | nil => rfl
  | cons op ops ih =>
    have hstep : statusOf (applyOp op st).meta = statusOf st.meta := by
      rcases statusOf_applyOp_step op st with h1 | ⟨hact, _⟩
      · exact h1
      · rcases h with h2 | h2 <;> rw [h2] at hact <;> exact absurd hact (by decide)
    rw [List.foldl_cons, ih (applyOp op st) (by rw [hstep]; exact h)]
    exact hstep

/-- C7: the session status state machine is irreversible: startSession stores
status active; every store operation either preserves the stored status or
moves it from active to completed or stopped; and once the stored status is
terminal, no sequence of store operations changes it. -/
theorem session_status_irreversible :
    (∀ (now : Int) (sid proj pp : String) (st : SessionFiles),
        statusOf ((startSession now sid proj pp st).2).meta = some "active") ∧
    (∀ (op : StoreOp) (st : SessionFiles),
        statusOf (applyOp op st).meta = statusOf st.meta ∨
        (statusOf st.meta = some "active" ∧
          (statusOf (applyOp op st).meta = some "completed" ∨
            statusOf (applyOp op st).meta = some "stopped"))) ∧
    (∀ (ops : List StoreOp) (st : SessionFiles),
        statusOf st.meta = some "completed" ∨ statusOf st.meta = some "stopped" →
        statusOf ((ops.foldl (fun s op => applyOp op s) st)).meta = statusOf st.meta) :=
  ⟨fun _ _ _ _ _ => rfl, statusOf_applyOp_step, statusOf_foldl_terminal⟩

/-- C7 witness: the theorem applied to a completed session and a concrete
operation sequence. -/
theorem session_status_irreversible_witness :
    (statusOf exStateCompleted.meta = some "completed" ∨
      statusOf exStateCompleted.meta = some "stopped") ∧
    statusOf (([StoreOp.opSummary 5 "s", StoreOp.opEnd 6 "end"].foldl
        (fun s op => applyOp op s) exStateCompleted)).meta =
      statusOf exStateCompleted.meta :=
  ⟨Or.inl rfl,
    session_status_irreversible.2.2 [StoreOp.opSummary 5 "s", StoreOp.opEnd 6 "end"]
      exStateCompleted (Or.inl rfl)⟩

/-- C8: the identity fields id, project and projectPath stored in a session
metadata file are unchanged by every metadata-mutating store operation
(endSession, updateSessionSummary, updatePreCompactKnowledge). -/
theorem metadata_identity_immutable (op : StoreOp) (st : SessionFiles) :
    metaIdentityOf (applyOp op st).meta = metaIdentityOf st.meta := by
  obtain ⟨mf, mm, ob, om, pd⟩ := st
  cases op with
  | opEnd now t =>
    cases mf with
    | absent => rfl
    | corrupt => rfl
    | valid m =>
      by_cases hs : m.status = "active" <;>
        simp [applyOp, endSession, readSessionMetadata, writeSessionMetadata,
          metaIdentityOf, hs]
  | opSummary now s2 =>
    cases mf with
    | absent => rfl
    | corrupt => rfl
    | valid m =>
      simp [applyOp, updateSessionSummary, readSessionMetadata, writeSessionMetadata,
        metaIdentityOf]
  | opKnowledge now ps =>
    cases mf with
    | absent => rfl
    | corrupt => rfl
    | valid m =>
      simp [applyOp, updatePreCompactKnowledge, readSessionMetadata, writeSessionMetadata,
        metaIdentityOf]

/-- One observation increments commandsRun exactly when its type is command. -/
theorem obsStep_cmds (acc : List String × Nat × Nat) (o : RawObs) :
    (obsStep acc o).2.1 = acc.2.1 + (if o.type = some "command" then 1 else 0) := by
  unfold obsStep
  by_cases h1 : o.type = some "file_edit"
  · simp [h1]
  · by_cases h2 : o.type = some "command" <;> simp [h1, h2]

/-- One observation increments errorsEncountered exactly when its type is
error or its isError flag is set. -/
theorem obsStep_errs (acc : List String × Nat × Nat) (o : RawObs) :
    (obsStep acc o).2.2 =
      acc.2.2 + (if o.type = some "error" ∨ o.isError = some true then 1 else 0) := by
  unfold obsStep
  by_cases h3 : o.type = some "error" ∨ o.isError = some true <;> simp [h3]

/-- The filesModified component after one observation. -/
theorem obsStep_files (acc : List String × Nat × Nat) (o : RawObs) :
    (obsStep acc o).1 =
      if o.type = some "file_edit" then fileInsert acc.1 o.dataPath else acc.1 := by
  unfold obsStep fileInsert
  by_cases h1 : o.type = some "file_edit"
  · simp [h1]
  · by_cases h2 : o.type = some "command" <;> simp [h1, h2]

/-- Membership in filesModified after one observation. -/
theorem obsStep_files_mem (acc : List String × Nat × Nat) (o : RawObs) (p : String) :
    p ∈ (obsStep acc o).1 ↔
      p ∈ acc.1 ∨ (o.type = some "file_edit" ∧ o.dataPath = some p ∧ p ≠ "") := by
  rw [obsStep_files]
  by_cases h1 : o.type = some "file_edit"
  case neg => simp [h1]
  rw [if_pos h1]
  cases hd : o.dataPath with
  | none => simp [fileInsert]
  | some q =>
    rw [show fileInsert acc.1 (some q) =
        if q ≠ "" then (if q ∈ acc.1 then acc.1 else acc.1 ++ [q]) else acc.1 from rfl]
    by_cases hq : q ≠ ""
    · rw [if_pos hq]
      by_cases hmem : q ∈ acc.1
      · rw [if_pos hmem]
        constructor
        · exact fun hp => Or.inl hp
        · rintro (hp | ⟨_, hdp, _⟩)
          · exact hp
          · injection hdp with hqp
            rw [← hqp]
            exact hmem
      · rw [if_neg hmem]
        constructor
        · intro hp
          rcases List.mem_append.mp hp with hp | hp
          · exact Or.inl hp
          · have hpq : p = q := by simpa using hp
            subst hpq
            exact Or.inr ⟨h1, rfl, hq⟩
        · rintro (hp | ⟨_, hdp, hne⟩)
          · exact List.mem_append_left _ hp
          · injection hdp with hqp
            rw [← hqp]
            exact List.mem_append_right _ (by simp)
    · rw [if_neg hq]
      push_neg at hq
      constructor
      · exact fun hp => Or.inl hp
      · rintro (hp | ⟨_, hdp, hne⟩)
        · exact hp
        · injection hdp with hqp
          exact absurd (hqp ▸ hq) hne

/-- filesModified stays duplicate-free after one observation. -/
theorem obsStep_files_nodup (acc : List String × Nat × Nat) (o : RawObs)
    (h : acc.1.Nodup) : (obsStep acc o).1.Nodup := by
  rw [obsStep_files]
  by_cases h1 : o.type = some "file_edit"
  case neg => rw [if_neg h1]; exact h
  rw [if_pos h1]
  cases hd : o.dataPath with
  | none => exact h
  | some q =>
    rw [show fileInsert acc.1 (some q) =
        if q ≠ "" then (if q ∈ acc.1 then acc.1 else acc.1 ++ [q]) else acc.1 from rfl]
    by_cases hq : q ≠ ""
    · rw [if_pos hq]
      by_cases hmem : q ∈ acc.1
      · rw [if_pos hmem]; exact h
      · rw [if_neg hmem]
        rw [List.nodup_append]
        exact ⟨h, List.nodup_singleton q, by
          intro a ha hb
          rw [List.mem_singleton] at hb
          subst hb
          exact hmem ha⟩
    · rw [if_neg hq]; exact h

/-- commandsRun of the counter fold. -/
theorem obsFold_cmds (obs : List RawObs) (acc : List String × Nat × Nat) :
    (obs.foldl obsStep acc).2.1 =
      acc.2.1 + obs.countP (fun o => o.type = some "command") := by
  induction obs generalizing acc with
  | nil => simp
  | cons o t ih =>
    rw [List.foldl_cons, ih, obsStep_cmds, List.countP_cons]
    by_cases h : o.type = some "command" <;> simp [h] <;> omega

/-- errorsEncountered of the counter fold. -/
theorem obsFold_errs (obs : List RawObs) (acc : List String × Nat × Nat) :
    (obs.foldl obsStep acc).2.2 =
      acc.2.2 + obs.countP (fun o => o.type = some "error" ∨ o.isError = some true) := by
  induction obs generalizing acc with
  | nil => simp
  | cons o t ih =>
    rw [List.foldl_cons, ih, obsStep_errs, List.countP_cons]
    by_cases h : o.type = some "error" ∨ o.isError = some true <;> simp [h] <;> omega

/-- Membership in filesModified of the counter fold. -/
theorem obsFold_files_mem (obs : List RawObs) (acc : List String × Nat × Nat) (p : String) :
    p ∈ (obs.foldl obsStep acc).1 ↔
      p ∈ acc.1 ∨ ∃ o, o ∈ obs ∧ o.type = some "file_edit" ∧ o.dataPath = some p ∧ p ≠ "" := by
  induction obs generalizing acc with
  | nil => simp
  | cons o t ih =>
    rw [List.foldl_cons, ih, obsStep_files_mem]
    constructor
    · rintro ((hp | ho) | ⟨o2, ho2, hprop⟩)
      · exact Or.inl hp
      · exact Or.inr ⟨o, List.mem_cons_self o t, ho⟩
      · exact Or.inr ⟨o2, List.mem_cons_of_mem o ho2, hprop⟩
    · rintro (hp | ⟨o2, ho2, hprop⟩)
      · exact Or.inl (Or.inl hp)
      · rcases List.mem_cons.mp ho2 with rfl | hmem
        · exact Or.inl (Or.inr hprop)
        · exact Or.inr ⟨o2, hmem, hprop⟩

/-- filesModified of the counter fold is duplicate-free. -/
theorem obsFold_files_nodup (obs : List RawObs) (acc : List String × Nat × Nat)
    (h : acc.1.Nodup) : (obs.foldl obsStep acc).1.Nodup := by
  induction obs generalizing acc with
  | nil => exact h
  | cons o t ih =>
    rw [List.foldl_cons]
    exact ih _ (obsStep_files_nodup acc o h)

/-- C10: the cross-cutting counters of readSession are derived entirely from
the observation log: commandsRun counts the parsed observations of type
command, errorsEncountered counts those of type error or with the isError
flag set, and filesModified is the duplicate-free list of non-empty paths of
the file_edit observations. -/
theorem readSession_counters_from_log (st : SessionFiles) (sess : Session)
    (h : readSession st = some sess) :
    sess.commandsRun = (readObservations st.obs).countP (fun o => o.type = some "command") ∧
    sess.errorsEncountered =
      (readObservations st.obs).countP
        (fun o => o.type = some "error" ∨ o.isError = some true) ∧
    sess.filesModified.Nodup ∧
    (∀ p : String, p ∈ sess.filesModified ↔
      ∃ o, o ∈ readObservations st.obs ∧ o.type = some "file_edit" ∧
        o.dataPath = some p ∧ p ≠ "") := by
  unfold readSession at h
  cases hm : readSessionMetadata st.meta with
  | none => rw [hm] at h; cases h
  | some m =>
    rw [hm] at h
    simp only [Option.some.injEq] at h
    subst h
    refine ⟨?_, ?_, ?_, ?_⟩
    · simpa using obsFold_cmds (readObservations st.obs) ([], 0, 0)
    · simpa using obsFold_errs (readObservations st.obs) ([], 0, 0)
    · exact obsFold_files_nodup (readObservations st.obs) ([], 0, 0) List.nodup_nil
    · intro p
      simpa using obsFold_files_mem (readObservations st.obs) ([], 0, 0) p

/-- C10 witness: the theorem applied to a concrete session whose log holds one
command observation, one malformed line and one file-edit observation. -/
theorem readSession_counters_from_log_witness :
    readSession exStateWithObs = some exSessionWithObs ∧
    exSessionWithObs.commandsRun =
      (readObservations exStateWithObs.obs).countP (fun o => o.type = some "command") ∧
    exSessionWithObs.errorsEncountered =
      (readObservations exStateWithObs.obs).countP
        (fun o => o.type = some "error" ∨ o.isError = some true) ∧
    exSessionWithObs.filesModified.Nodup ∧
    (∀ p : String, p ∈ exSessionWithObs.filesModified ↔
      ∃ o, o ∈ readObservations exStateWithObs.obs ∧ o.type = some "file_edit" ∧
        o.dataPath = some p ∧ p ≠ "") := by
  have h : readSession exStateWithObs = some exSessionWithObs := by rfl
  exact ⟨h, readSession_counters_from_log exStateWithObs exSessionWithObs h⟩

/-- natToBytesBE yields exactly k bytes. -/
theorem natToBytesBE_length (k n : Nat) : (natToBytesBE k n).length = k := by
  induction k generalizing n with
  | zero => rfl
  | succ j ih => simp [natToBytesBE, ih]

/-- Every byte of natToBytesBE is below 256. -/
theorem natToBytesBE_lt (k n : Nat) : ∀ b ∈ natToBytesBE k n, b < 256 := by
  induction k generalizing n with
  | zero => intro b hb; simp [natToBytesBE] at hb
  | succ j ih =>
    intro b hb
    simp only [natToBytesBE, List.mem_cons] at hb
    rcases hb with rfl | hb
    · exact Nat.mod_lt _ (by norm_num)
    · exact ih n b hb

/-- The SHA-256 digest has 32 bytes. -/
theorem sha256Bytes_length (msg : List Nat) : (sha256Bytes msg).length = 32 := by
  simp [sha256Bytes, List.flatMap_cons, List.flatMap_nil, natToBytesBE_length]

/-- Every byte of the SHA-256 digest is below 256. -/
theorem sha256Bytes_lt (msg : List Nat) : ∀ b ∈ sha256Bytes msg, b < 256 := by
  unfold sha256Bytes
  intro b hb
  simp only [List.flatMap_cons, List.flatMap_nil, List.append_nil, List.mem_append] at hb
  rcases hb with h | h | h | h | h | h | h | h <;> exact natToBytesBE_lt 4 _ b h

/-- The truncated digest has 8 bytes. -/
theorem trunc8_length (s : String) : (trunc8 s).length = 8 := by
  unfold trunc8
  rw [List.length_take, sha256Bytes_length]
  omega

/-- Every byte of the truncated digest is below 256. -/
theorem trunc8_lt (s : String) : ∀ b ∈ trunc8 s, b < 256 :=
  fun b hb => sha256Bytes_lt (utf8Bytes s) b (List.take_subset 8 _ hb)

/-- Folding the big-endian value from an arbitrary accumulator. -/
theorem beVal_shift (l : List Nat) (acc : Nat) :
    l.foldl (fun a b => 256 * a + b) acc = acc * 256 ^ l.length + beVal l := by
  induction l generalizing acc with
  | nil => simp [beVal]
  | cons b t ih =>
    have hcons : beVal (b :: t) = b * 256 ^ t.length + beVal t := by
      show t.foldl (fun a b => 256 * a + b) (256 * 0 + b) = _
      rw [ih (256 * 0 + b)]
      norm_num
    rw [List.foldl_cons, ih (256 * acc + b), hcons, List.length_cons, pow_succ]
    ring

/-- Big-endian value of a cons. -/
theorem beVal_cons (b : Nat) (t : List Nat) :
    beVal (b :: t) = b * 256 ^ t.length + beVal t := by
  show t.foldl (fun a b => 256 * a + b) (256 * 0 + b) = _
  rw [beVal_shift t (256 * 0 + b)]
  norm_num

/-- The big-endian value of a byte list is bounded by 256 ^ length. -/
theorem beVal_lt (l : List Nat) (h : ∀ b ∈ l, b < 256) : beVal l < 256 ^ l.length := by
  induction l with
  | nil => norm_num [beVal]
  | cons b t ih =>
    rw [beVal_cons, List.length_cons, pow_succ]
    have hb : b < 256 := h b (List.mem_cons_self b t)
    have ht : beVal t < 256 ^ t.length := ih (fun x hx => h x (List.mem_cons_of_mem b hx))
    calc b * 256 ^ t.length + beVal t
        ≤ 255 * 256 ^ t.length + beVal t := by
          exact Nat.add_le_add_right (Nat.mul_le_mul_right _ (by omega)) _
      _ < 255 * 256 ^ t.length + 256 ^ t.length := by omega
      _ = 256 ^ t.length * 256 := by ring

/-- The big-endian value determines a byte list of known length. -/
theorem beVal_inj (l1 : List Nat) : ∀ l2 : List Nat, l1.length = l2.length →
    (∀ b ∈ l1, b < 256) → (∀ b ∈ l2, b < 256) → beVal l1 = beVal l2 → l1 = l2 := by
  induction l1 with
  | nil =>
    intro l2 hlen _ _ _
    cases l2 with
    | nil => rfl
    | cons b t => simp at hlen
  | cons a t1 ih =>
    intro l2 hlen h1 h2 heq
    cases l2 with
    | nil => simp at hlen
    | cons b t2 =>
      have hlen2 : t1.length = t2.length := by simpa using hlen
      rw [beVal_cons, beVal_cons, hlen2] at heq
      have hv1 : beVal t1 < 256 ^ t2.length := by
        rw [← hlen2]
        exact beVal_lt t1 (fun x hx => h1 x (List.mem_cons_of_mem a hx))
      have hv2 : beVal t2 < 256 ^ t2.length :=
        beVal_lt t2 (fun x hx => h2 x (List.mem_cons_of_mem b hx))
      have hPpos : 0 < 256 ^ t2.length := Nat.pos_pow_of_pos _ (by norm_num)
      have hab : a = b := by
        have ha : (a * 256 ^ t2.length + beVal t1) / 256 ^ t2.length = a := by
          rw [Nat.mul_comm, Nat.mul_add_div hPpos, Nat.div_eq_of_lt hv1, Nat.add_zero]
        have hb : (b * 256 ^ t2.length + beVal t2) / 256 ^ t2.length = b := by
          rw [Nat.mul_comm, Nat.mul_add_div hPpos, Nat.div_eq_of_lt hv2, Nat.add_zero]
        rw [← ha, heq, hb]
      subst hab
      have hv : beVal t1 = beVal t2 := by omega
      rw [ih t2 hlen2 (fun x hx => h1 x (List.mem_cons_of_mem a hx))
        (fun x hx => h2 x (List.mem_cons_of_mem a hx)) hv]

/-- Each byte contributes two hex characters. -/
theorem flatMap_byteToHex_length (l : List Nat) :
    (l.flatMap byteToHex).length = 2 * l.length := by
  induction l with
  | nil => rfl
  | cons b t ih =>
    simp only [List.flatMap_cons, List.length_append, ih, byteToHex, List.length_cons,
      List.length_nil]
    omega

/-- hash16 is the hex rendering of the truncated digest. -/
theorem hash16_eq_mk (s : String) :
    hash16 s = String.mk ((trunc8 s).flatMap byteToHex) := rfl

/-- hash16 always has 16 characters. -/
theorem hash16_data_length (s : String) : (hash16 s).data.length = 16 := by
  rw [hash16_eq_mk]
  show ((trunc8 s).flatMap byteToHex).length = 16
  rw [flatMap_byteToHex_length, trunc8_length]

/-- Every hex digit character is alphanumeric. -/
theorem hexDigitChar_safe : ∀ n : Nat,
    (isAsciiAlphaNum (hexDigitChar n) || (hexDigitChar n == '_')) = true
  | 0 => by decide
  | 1 => by decide
  | 2 => by decide
  | 3 => by decide
  | 4 => by decide
  | 5 => by decide
  | 6 => by decide
  | 7 => by decide
  | 8 => by decide
  | 9 => by decide
  | 10 => by decide
  | 11 => by decide
  | 12 => by decide
  | 13 => by decide
  | 14 => by decide
  | 15 => by decide
  | (_ + 16) => rfl

/-- Lowercasing keeps a character alphanumeric. -/
theorem asciiLower_safe (c : Char) (h : isAsciiAlphaNum c = true) :
    (isAsciiAlphaNum (asciiLower c) || (asciiLower c == '_')) = true := by
  unfold asciiLower
  split
  all_goals first | decide | simp [h]

/-- Every character of a derived filename is ASCII alphanumeric or underscore. -/
theorem safeFilename_chars (s : String) (c : Char)
    (hc : c ∈ (safeSessionFilename s).data) :
    (isAsciiAlphaNum c || (c == '_')) = true := by
  unfold safeSessionFilename at hc
  rw [String.data_append, String.data_append] at hc
  rcases List.mem_append.mp hc with hc1 | hch
  · rcases List.mem_append.mp hc1 with hcp | hcu
    · by_cases hp : filenamePfx s = ""
      · rw [if_pos hp] at hcp
        have hmem : c ∈ (['s', 'e', 's', 's', 'i', 'o', 'n'] : List Char) := hcp
        fin_cases hmem <;> decide
      · rw [if_neg hp] at hcp
        unfold filenamePfx at hcp
        have hmem : c ∈ ((s.data.take 8).filter isAsciiAlphaNum).map asciiLower := hcp
        rcases List.mem_map.mp hmem with ⟨c0, hc0, rfl⟩
        exact asciiLower_safe c0 (List.of_mem_filter hc0)
    · have hcu2 : c = '_' := by simpa using hcu
      subst hcu2
      decide
  · rw [hash16_eq_mk] at hch
    have hmem : c ∈ (trunc8 s).flatMap byteToHex := hch
    rcases List.mem_flatMap.mp hmem with ⟨b, _, hcb⟩
    have hcb2 : c = hexDigitChar (b / 16) ∨ c = hexDigitChar (b % 16) := by
      simpa [byteToHex] using hcb
    rcases hcb2 with rfl | rfl <;> exact hexDigitChar_safe _

/-- Equal derived filenames force equal truncated hash components. -/
theorem hash16_eq_of_filename_eq (s1 s2 : String)
    (h : safeSessionFilename s1 = safeSessionFilename s2) : hash16 s1 = hash16 s2 := by
  unfold safeSessionFilename at h
  have hdata := congrArg String.data h
  rw [String.data_append, String.data_append, String.data_append, String.data_append] at hdata
  have hlen : (hash16 s1).data.length = (hash16 s2).data.length := by
    rw [hash16_data_length, hash16_data_length]
  exact String.ext (List.append_inj' hdata hlen).2

/-- No alphanumeric character survives in an all-unsafe identifier. -/
theorem filter_bang (n : Nat) :
    (List.replicate n '!').filter isAsciiAlphaNum = [] := by
  induction n with
  | zero => rfl
  | succ k ih =>
    rw [List.replicate_succ, List.filter_cons]
    have h : isAsciiAlphaNum '!' = false := rfl
    simp [h, ih]

/-- The legible prefix of an all-unsafe identifier is empty. -/
theorem filenamePfx_bang (n : Nat) : filenamePfx (bangRepeat n) = "" := by
  unfold filenamePfx bangRepeat
  rw [show (String.mk (List.replicate n '!')).data = List.replicate n '!' from rfl,
    List.take_replicate, filter_bang]
  rfl

/-- All-unsafe identifiers strip to the empty string. -/
theorem stripUnsafe_bang (n : Nat) : stripUnsafe (bangRepeat n) = "" := by
  unfold stripUnsafe bangRepeat
  rw [show (String.mk (List.replicate n '!')).data = List.replicate n '!' from rfl,
    filter_bang]

/-- C6 counterexample: the claim as stated is false. Since the derived
filename keeps only 64 bits of the hash and the prefix of an all-unsafe
identifier is always "session", the derived-name space reachable from the
infinitely many all-unsafe identifiers is finite, so by pigeonhole two
distinct identifiers that differ only by unsafe characters share one derived
filename. -/
theorem safe_filename_distinctness_fails :
    ¬ (∀ s1 s2 : String, s1 ≠ s2 → stripUnsafe s1 = stripUnsafe s2 →
        safeSessionFilename s1 ≠ safeSessionFilename s2) := by
  intro hcl
  have hbound : ∀ k : Nat, beVal (trunc8 (bangRepeat k)) < 256 ^ 8 := by
    intro k
    have h := beVal_lt (trunc8 (bangRepeat k)) (trunc8_lt _)
    rwa [trunc8_length] at h
  obtain ⟨m, n, hmn, heq⟩ :=
    Finite.exists_ne_map_eq_of_infinite
      (fun k : Nat => (⟨beVal (trunc8 (bangRepeat k)), hbound k⟩ : Fin (256 ^ 8)))
  have hval : beVal (trunc8 (bangRepeat m)) = beVal (trunc8 (bangRepeat n)) :=
    congrArg Fin.val heq
  have htr : trunc8 (bangRepeat m) = trunc8 (bangRepeat n) :=
    beVal_inj _ _ (by rw [trunc8_length, trunc8_length]) (trunc8_lt _) (trunc8_lt _) hval
  have hhash : hash16 (bangRepeat m) = hash16 (bangRepeat n) := by
    rw [hash16_eq_mk, hash16_eq_mk, htr]
  have hfn : safeSessionFilename (bangRepeat m) = safeSessionFilename (bangRepeat n) := by
    unfold safeSessionFilename
    rw [filenamePfx_bang, filenamePfx_bang, hhash]
  have hne : bangRepeat m ≠ bangRepeat n := by
    intro h
    apply hmn
    have h2 := congrArg (fun s : String => s.data.length) h
    simpa [bangRepeat] using h2
  exact hcl (bangRepeat m) (bangRepeat n) hne
    (by rw [stripUnsafe_bang, stripUnsafe_bang]) hfn

/-- C6 (amended): two session identifiers receive different derived filenames
whenever their 16-hex-character truncated digests differ (in particular for
any pair differing only by unsafe characters whose truncated digests differ),
and every derived filename consists of ASCII alphanumerics and underscore
only, so it contains no path separator and no parent-directory segment. -/
theorem safe_filename_distinct_and_traversal_safe :
    (∀ s1 s2 : String, hash16 s1 ≠ hash16 s2 →
        safeSessionFilename s1 ≠ safeSessionFilename s2) ∧
    (∀ (s : String) (c : Char), c ∈ (safeSessionFilename s).data →
        (isAsciiAlphaNum c || (c == '_')) = true) ∧
    (∀ s : String, ('/' : Char) ∉ (safeSessionFilename s).data ∧
        ('.' : Char) ∉ (safeSessionFilename s).data) := by
  refine ⟨?_, safeFilename_chars, ?_⟩
  · intro s1 s2 hne heq
    exact hne (hash16_eq_of_filename_eq s1 s2 heq)
  · intro s
    constructor
    · intro hmem
      exact absurd (safeFilename_chars s '/' hmem) (by decide)
    · intro hmem
      exact absurd (safeFilename_chars s '.' hmem) (by decide)

set_option maxRecDepth 100000

/-- C6 witness: the theorem applied to the concrete identifiers "a/b" and
"a:b", which differ only in a path-separator-like character. -/
theorem safe_filename_distinct_witness :
    hash16 "a/b" ≠ hash16 "a:b" ∧
    safeSessionFilename "a/b" ≠ safeSessionFilename "a:b" ∧
    ('a' : Char) ∈ (safeSessionFilename "a/b").data ∧
    (isAsciiAlphaNum 'a' || ('a' == '_')) = true :=
  ⟨by decide, safe_filename_distinct_and_traversal_safe.1 "a/b" "a:b" (by decide),
   by decide,
   safe_filename_distinct_and_traversal_safe.2.1 "a/b" 'a' (by decide)⟩

end OnlyContext
